import Mathlib

/-! Verification of the itis-schedule XLSX parser and elective matcher.

The definitions below are a shallow embedding of `src/parser.py` and
`src/electives.py`: Python strings become `List Char`, each Python regular
expression becomes a dedicated matching function spelling out Python's
leftmost-match and greedy-backtracking semantics for that concrete
pattern, and the spreadsheet becomes a dense grid of `(value, hyperlink)`
pairs together with a list of merge ranges.
-/

/-! ## Character classes -/

/-- Cyrillic uppercase letter: the `[А-ЯЁ]` regex class (А..Я plus Ё). -/
def isUpperCyr (c : Char) : Bool :=
  decide (0x410 ≤ c.toNat ∧ c.toNat ≤ 0x42F) || decide (c.toNat = 0x401)

/-- Cyrillic lowercase letter: the `[а-яё]` regex class (а..я plus ё). -/
def isLowerCyr (c : Char) : Bool :=
  decide (0x430 ≤ c.toNat ∧ c.toNat ≤ 0x44F) || decide (c.toNat = 0x451)

/-- Cyrillic letter of either case: the `[А-ЯЁа-яё]` regex class. -/
def isCyr (c : Char) : Bool := isUpperCyr c || isLowerCyr c

/-- Whitespace, as Python's `\s` class and `str.strip`/`str.split` see the
characters that occur in this spreadsheet dialect. -/
def isPySpace (c : Char) : Bool :=
  c == ' ' || c == '\t' || c == '\n' || c == '\r' ||
  decide (c.toNat = 11) || decide (c.toNat = 12)

/-- Decimal digit: the `\d` regex class. -/
def isDigitC (c : Char) : Bool := decide ('0' ≤ c) && decide (c ≤ '9')

/-- Word character for Python's `\w` / word boundaries `\b`: ASCII
alphanumerics, underscore, and the Cyrillic block. -/
def isWordC (c : Char) : Bool :=
  (decide ('a' ≤ c) && decide (c ≤ 'z')) ||
  (decide ('A' ≤ c) && decide (c ≤ 'Z')) ||
  isDigitC c || c == '_' ||
  (decide (0x400 ≤ c.toNat) && decide (c.toNat ≤ 0x4FF))

/-- Lowercasing as Python's `str.lower` acts on the ASCII and Cyrillic
letters appearing in the schedule (other characters are fixed). -/
def rusLower (c : Char) : Char :=
  if 0x41 ≤ c.toNat ∧ c.toNat ≤ 0x5A then Char.ofNat (c.toNat + 0x20)
  else if 0x410 ≤ c.toNat ∧ c.toNat ≤ 0x42F then Char.ofNat (c.toNat + 0x20)
  else if c.toNat = 0x401 then Char.ofNat 0x451
  else c

/-! ## Python string helpers -/

/-- Python `str.lower()`. -/
def pyLower (s : List Char) : List Char := s.map rusLower

/-- Python `str.strip()` (no argument: strip whitespace on both ends). -/
def pyStrip (s : List Char) : List Char :=
  ((s.dropWhile isPySpace).reverse.dropWhile isPySpace).reverse

/-- Python `str.rstrip(",")`: drop all trailing commas. -/
def rstripComma (s : List Char) : List Char :=
  (s.reverse.dropWhile (fun c => c == ',')).reverse

/-- Python `str.lstrip(",")`: drop all leading commas. -/
def lstripComma (s : List Char) : List Char :=
  s.dropWhile (fun c => c == ',')

/-- Python `str.splitlines()` for the line breaks `\n`, `\r\n` and `\r`
(no trailing empty line, empty string gives no lines). -/
def splitlinesAux : List Char → List Char → List (List Char)
  | [], acc => if acc.isEmpty then [] else [acc.reverse]
  | '\r' :: '\n' :: rest, acc => acc.reverse :: splitlinesAux rest []
  | '\n' :: rest, acc => acc.reverse :: splitlinesAux rest []
  | '\r' :: rest, acc => acc.reverse :: splitlinesAux rest []
  | c :: rest, acc => splitlinesAux rest (c :: acc)

/-- Python `str.splitlines()`. -/
def pySplitlines (s : List Char) : List (List Char) := splitlinesAux s []

/-- Python `str.split()` (split on whitespace runs, dropping empties). -/
def pySplitAux : List Char → List Char → List (List Char)
  | [], acc => if acc.isEmpty then [] else [acc.reverse]
  | c :: rest, acc =>
    if isPySpace c then
      if acc.isEmpty then pySplitAux rest [] else acc.reverse :: pySplitAux rest []
    else pySplitAux rest (c :: acc)

/-- Python `str.split()`. -/
def pySplit (s : List Char) : List (List Char) := pySplitAux s []

/-- Python's substring test `needle in hay`. -/
def containsSub (nee : List Char) : List Char → Bool
  | [] => nee.isEmpty
  | c :: rest => nee.isPrefixOf (c :: rest) || containsSub nee rest

theorem containsSub_iff (nee hay : List Char) :
    containsSub nee hay = true ↔ nee <:+: hay := by
  induction hay with
  | nil => simp [containsSub]
  | cons c rest ih =>
    simp [containsSub, ih, List.infix_cons_iff, Bool.or_eq_true]

/-! ## Regex building blocks -/

/-- Greedy `p+`: one or more characters satisfying `p`, maximal munch.
This is exactly Python's behaviour for the patterns modelled here, in all
of which the repeated class is disjoint from what the pattern requires
next, so backtracking into the repetition can never succeed. -/
def takeWhile1 (p : Char → Bool) (s : List Char) : Option (List Char × List Char) :=
  match s.takeWhile p with
  | [] => none
  | c :: t => some (c :: t, s.drop (c :: t).length)

/-- Greedy match of the trailing `[А-ЯЁ]?\.?` of the instructor patterns:
an optional uppercase letter followed by an optional dot (never fails). -/
def optUpperDot (s : List Char) : List Char × List Char :=
  match s with
  | c :: rest =>
    if isUpperCyr c then
      match rest with
      | '.' :: rest2 => ([c, '.'], rest2)
      | _ => ([c], rest)
    else if c = '.' then (['.'], rest)
    else ([], c :: rest)
  | [] => ([], [])

/-- Anchored match of the instructor pattern of `_split_single_line_lesson`,
`[А-ЯЁ][а-яё]+\s+[А-ЯЁ]\.[А-ЯЁ]?\.?`, at the head of `s`.  Returns the
matched characters and the rest. -/
def matchInstrAt (s : List Char) : Option (List Char × List Char) :=
  match s with
  | [] => none
  | c :: rest =>
    if isUpperCyr c then
      match takeWhile1 isLowerCyr rest with
      | none => none
      | some (low, r1) =>
        match takeWhile1 isPySpace r1 with
        | none => none
        | some (sp, r2) =>
          match r2 with
          | u :: '.' :: r3 =>
            if isUpperCyr u then
              let t := optUpperDot r3
              some (c :: (low ++ sp ++ u :: '.' :: t.1), t.2)
            else none
          | _ => none
    else none

/-- Python `re.search` for the instructor pattern: leftmost match, returned
as `(text before, matched text, text after)` so that the caller can model
slicing by `m.start()` / `m.end()`. -/
def searchInstr : List Char → Option (List Char × List Char × List Char)
  | [] => none
  | c :: rest =>
    match matchInstrAt (c :: rest) with
    | some (m, post) => some ([], m, post)
    | none =>
      match searchInstr rest with
      | some (pre, m, post) => some (c :: pre, m, post)
      | none => none

/-- Exactly `n` decimal digits (`\d{n}`). -/
def takeExactDigits : Nat → List Char → Option (List Char × List Char)
  | 0, s => some ([], s)
  | _ + 1, [] => none
  | n + 1, c :: rest =>
    if isDigitC c then
      match takeExactDigits n rest with
      | some (d, r) => some (c :: d, r)
      | none => none
    else none

/-- Word boundary `\b` when the character to the left is a word character
(a digit in every use below): satisfied iff the rest starts with a
non-word character or is empty. -/
def boundaryAfter : List Char → Bool
  | [] => true
  | c :: _ => !isWordC c

/-- Greedy match of the optional hyphenated tail `(?:-\d{3,4})?` followed by
`\b`, Python's backtracking order (four digits before three). -/
def matchHyphenPart (s : List Char) : Option (List Char × List Char) :=
  match s with
  | '-' :: r1 =>
    (match takeExactDigits 4 r1 with
     | some (d, r2) =>
       if boundaryAfter r2 then some ('-' :: d, r2)
       else
         match takeExactDigits 3 r1 with
         | some (d3, r3) => if boundaryAfter r3 then some ('-' :: d3, r3) else none
         | none => none
     | none =>
       match takeExactDigits 3 r1 with
       | some (d3, r3) => if boundaryAfter r3 then some ('-' :: d3, r3) else none
       | none => none)
  | _ => none

/-- Tail of the room number after its leading digits: greedy optional
hyphen part first, then the bare word boundary. -/
def numTail (ds : List Char) (r : List Char) : Option (List Char × List Char) :=
  match matchHyphenPart r with
  | some (h, r2) => some (ds ++ h, r2)
  | none => if boundaryAfter r then some (ds, r) else none

/-- Anchored match of `\d{3,4}(?:-\d{3,4})?\b` with Python's greedy
backtracking order (four digits tried before three at each level). -/
def matchRoomNum (s : List Char) : Option (List Char × List Char) :=
  match takeExactDigits 4 s with
  | some (d4, r) =>
    (match numTail d4 r with
     | some res => some res
     | none =>
       match takeExactDigits 3 s with
       | some (d3, r3) => numTail d3 r3
       | none => none)
  | none =>
    match takeExactDigits 3 s with
    | some (d3, r3) => numTail d3 r3
    | none => none

/-- Anchored attempt of the room pattern
`(?:\bв\s+)?\b(\d{3,4}(?:-\d{3,4})?)\b` given the character preceding the
current position (`none` at string start).  Python tries the greedy
optional `в`-prefix first.  Returns `(whole match, group 1, rest)`. -/
def matchRoomWithPrefix (prev : Option Char) (s : List Char) :
    Option (List Char × List Char × List Char) :=
  let prevOk := match prev with
    | none => true
    | some p => !isWordC p
  if prevOk then
    let t1 : Option (List Char × List Char × List Char) :=
      match s with
      | 'в' :: r1 =>
        (match takeWhile1 isPySpace r1 with
         | some (sp, r2) =>
           match matchRoomNum r2 with
           | some (num, rest) => some ('в' :: (sp ++ num), num, rest)
           | none => none
         | none => none)
      | _ => none
    match t1 with
    | some res => some res
    | none =>
      match matchRoomNum s with
      | some (num, rest) => some (num, num, rest)
      | none => none
  else none

/-- Python `re.search` for the prefixed room pattern: leftmost match,
returned as `(pre, whole match, group 1, post)`. -/
def searchRoomAux (prev : Option Char) :
    List Char → Option (List Char × List Char × List Char × List Char)
  | [] => none
  | c :: rest =>
    match matchRoomWithPrefix prev (c :: rest) with
    | some (full, g, post) => some ([], full, g, post)
    | none =>
      match searchRoomAux (some c) rest with
      | some (pre, full, g, post) => some (c :: pre, full, g, post)
      | none => none

/-- Python `re.search(r"(?:\bв\s+)?\b(\d{3,4}(?:-\d{3,4})?)\b", s)`. -/
def searchRoom (s : List Char) :
    Option (List Char × List Char × List Char × List Char) :=
  searchRoomAux none s

/-- Python `re.search(r"\b(\d{3,4}(?:-\d{3,4})?)\b", s)`, returning only
group 1 (the callers in `_parse_lesson_block` use nothing else). -/
def searchRoomPlainAux (prev : Option Char) : List Char → Option (List Char)
  | [] => none
  | c :: rest =>
    let prevOk := match prev with
      | none => true
      | some p => !isWordC p
    match (if prevOk then matchRoomNum (c :: rest) else none) with
    | some (num, _) => some num
    | none => searchRoomPlainAux (some c) rest

/-- Leftmost plain room search. -/
def searchRoomPlain (s : List Char) : Option (List Char) :=
  searchRoomPlainAux none s

/-! ## Cell text extractor (`_split_single_line_lesson`, `_parse_lesson_block`,
`_parse_cell_text` of `src/parser.py`) -/

/-- One extracted `(subject, instructor, room, notes)` tuple. -/
structure RawLesson where
  subject : List Char
  instructor : List Char
  room : List Char
  notes : List Char
deriving DecidableEq, Repr

/-- Embedding of `_split_single_line_lesson`. -/
def split_single_line_lesson (line : List Char) : List RawLesson :=
  match searchInstr line with
  | some (pre, m, post) =>
    let instructor := pyStrip m
    let subject := rstripComma (pyStrip pre)
    let remainder := pyStrip (lstripComma (pyStrip post))
    (match searchRoom remainder with
     | some (rpre, _full, g, rpost) =>
       [⟨pyStrip subject, pyStrip instructor, pyStrip g,
         pyStrip (pyStrip (rpre ++ rpost))⟩]
     | none =>
       [⟨pyStrip subject, pyStrip instructor, [], pyStrip remainder⟩])
  | none =>
    (match searchRoom line with
     | some (rpre, _full, g, rpost) =>
       [⟨pyStrip (rstripComma (pyStrip rpre)), [], pyStrip g,
         pyStrip (pyStrip rpost)⟩]
     | none => [⟨pyStrip line, [], [], []⟩])

/-- Anchored full match of `^\d{3,4}(-\d{3,4})?$` (room-only line). -/
def roomTailEnd (r : List Char) : Bool :=
  r.isEmpty ||
  (match r with
   | '-' :: r1 =>
     (match takeExactDigits 4 r1 with
      | some (_, r2) => r2.isEmpty
      | none => false) ||
     (match takeExactDigits 3 r1 with
      | some (_, r2) => r2.isEmpty
      | none => false)
   | _ => false)

/-- Python `re.match(r"^\d{3,4}(-\d{3,4})?$", s)` as a Boolean. -/
def fullRoomB (s : List Char) : Bool :=
  (match takeExactDigits 4 s with
   | some (_, r) => roomTailEnd r
   | none => false) ||
  (match takeExactDigits 3 s with
   | some (_, r) => roomTailEnd r
   | none => false)

/-- Anchored attempt of `[А-ЯЁа-яё]{2,}\s+[А-ЯЁ]\.[А-ЯЁ]?\.` (the
instructor-detection pattern of `_parse_lesson_block`, note the mandatory
second dot) at the head of `s`. -/
def matchInstrDAt (s : List Char) : Bool :=
  match takeWhile1 isCyr s with
  | some (letters, r1) =>
    decide (2 ≤ letters.length) &&
    (match takeWhile1 isPySpace r1 with
     | some (_, r2) =>
       (match r2 with
        | c1 :: '.' :: r3 =>
          isUpperCyr c1 &&
          (match r3 with
           | c2 :: c3 :: _ => (isUpperCyr c2 && c3 == '.') || c2 == '.'
           | [c2] => c2 == '.'
           | [] => false)
        | _ => false)
     | none => false)
  | none => false

/-- Python `re.search(r"[А-ЯЁа-яё]{2,}\s+[А-ЯЁ]\.[А-ЯЁ]?\.", s)` as a
Boolean (only existence is used by the source). -/
def hasInstrD : List Char → Bool
  | [] => false
  | c :: rest => matchInstrDAt (c :: rest) || hasInstrD rest

/-- Anchored attempt of the core `[А-ЯЁа-яё]+\s+[А-ЯЁ]\.[А-ЯЁ]?\.?` used
inside `re.match(r"(.*?[А-ЯЁа-яё]+\s+[А-ЯЁ]\.[А-ЯЁ]?\.?)(.*)", s)`. -/
def matchInstrEAt (s : List Char) : Option (List Char × List Char) :=
  match takeWhile1 isCyr s with
  | some (letters, r1) =>
    (match takeWhile1 isPySpace r1 with
     | some (sp, r2) =>
       (match r2 with
        | u :: '.' :: r3 =>
          if isUpperCyr u then
            let t := optUpperDot r3
            some (letters ++ sp ++ u :: '.' :: t.1, t.2)
          else none
        | _ => none)
     | none => none)
  | none => none

/-- Python `re.match(r"(.*?[А-ЯЁа-яё]+\s+[А-ЯЁ]\.[А-ЯЁ]?\.?)(.*)", s)`:
the lazy `.*?` takes the shortest prefix after which the instructor core
matches; the result is `(group 1, group 2)`. -/
def instrEMatch : List Char → Option (List Char × List Char)
  | [] => none
  | c :: rest =>
    match matchInstrEAt (c :: rest) with
    | some (m, r) => some (m, r)
    | none =>
      match instrEMatch rest with
      | some (g1, g2) => some (c :: g1, g2)
      | none => none

/-- Marker substrings that make a line a notes fragment in
`_parse_lesson_block`. -/
def markerWords : List String :=
  ["(", "нед.", "вебинар", "цор", "подгр", "онлайн", " в "]

/-- One iteration of the `for line in lines[1:]` loop of
`_parse_lesson_block`; the state is `(instructor, room, notes_parts)`. -/
def blockStep (st : List Char × List Char × List (List Char)) (line : List Char) :
    List Char × List Char × List (List Char) :=
  let instructor := st.1
  let room := st.2.1
  let notesParts := st.2.2
  let clean := pyStrip (rstripComma line)
  if clean.isEmpty then st
  else if fullRoomB clean then (instructor, clean, notesParts)
  else if hasInstrD clean then
    (match instrEMatch clean with
     | some (g1, g2) =>
       let instructor2 := pyStrip g1
       let remainder := pyStrip g2
       if remainder.isEmpty then (instructor2, room, notesParts)
       else
         let room2 := match searchRoomPlain remainder with
           | some g => g
           | none => room
         (instructor2, room2, notesParts ++ [remainder])
     | none => (clean, room, notesParts))
  else if markerWords.any (fun k => containsSub k.data (pyLower clean)) then
    let room2 := match searchRoomPlain clean with
      | some g => g
      | none => room
    (instructor, room2, notesParts ++ [clean])
  else
    match searchRoomPlain clean with
    | some g =>
      if instructor.isEmpty then (clean, g, notesParts)
      else (instructor, g, notesParts ++ [clean])
    | none => (instructor, room, notesParts ++ [clean])

/-- Embedding of `_parse_lesson_block` (callers guarantee at least two
lines; the empty case mirrors returning all-empty fields). -/
def parse_lesson_block (lines : List (List Char)) : RawLesson :=
  match lines with
  | [] => ⟨[], [], [], []⟩
  | first :: rest =>
    let subject := pyStrip (rstripComma first)
    let st := rest.foldl blockStep ([], [], [])
    let notes := if st.2.2.isEmpty then [] else List.intercalate "; ".data st.2.2
    ⟨subject, st.1, st.2.1, notes⟩

/-- Embedding of `_parse_cell_text`. -/
def parse_cell_text (raw : List Char) : List RawLesson :=
  if raw.isEmpty || (pyStrip raw).isEmpty then []
  else
    let lines := ((pySplitlines (pyStrip raw)).map pyStrip).filter (fun l => !l.isEmpty)
    match lines with
    | [] => []
    | l0 :: rest =>
      if containsSub "дисциплины по выбору".data (pyLower l0) then
        rest.flatMap (fun line =>
          (split_single_line_lesson line).map (fun e =>
            ⟨e.subject, e.instructor, e.room, pyStrip (e.notes ++ " (по выбору)".data)⟩))
      else if rest.isEmpty then split_single_line_lesson l0
      else [parse_lesson_block (l0 :: rest)]

/-! ## Lesson classifier (`_detect_lesson_type`, `_detect_lesson_weeks`) -/

/-- Lecture keywords of `_detect_lesson_type`. -/
def lectureKeys : List String := ["лекци", " лек.", " лек ", "(лек."]

/-- Practice keywords of `_detect_lesson_type`. -/
def practiceKeys : List String := ["практик", " пр.", " пр ", "(пр.", "выбору"]

/-- Odd-week keywords of `_detect_lesson_weeks`. -/
def oddKeys : List String := ["нечетн", "нечет", "неч."]

/-- Even-week keywords of `_detect_lesson_weeks`. -/
def evenKeys : List String := ["четн", "чет.", "чет "]

/-- The lowercased concatenation `f"{subject} {instructor} {notes}".lower()`
both detectors operate on. -/
def lessonText (subject instructor notes : String) : List Char :=
  pyLower (subject ++ " " ++ instructor ++ " " ++ notes).data

/-- Embedding of `_detect_lesson_type`. -/
def detect_lesson_type (subject instructor notes : String) (is_shared : Bool) : String :=
  let text := lessonText subject instructor notes
  if lectureKeys.any (fun k => containsSub k.data text) then "Лекц"
  else if practiceKeys.any (fun k => containsSub k.data text) then "Прак"
  else if is_shared then "Лекц"
  else "Прак"

/-- Embedding of `_detect_lesson_weeks`. -/
def detect_lesson_weeks (subject instructor notes : String) : String :=
  let text := lessonText subject instructor notes
  if oddKeys.any (fun k => containsSub k.data text) then "odd"
  else if evenKeys.any (fun k => containsSub k.data text) then "even"
  else "all"

/-! ## Elective matcher (`src/electives.py`) -/

/-- Scan forward to just after the first `)`, as the lazy body of one
`re.sub(r"\(.*?\)", ...)` match does; `none` when no `)` remains. -/
def dropThroughParen : List Char → Option (List Char)
  | [] => none
  | c :: rest => if c = ')' then some rest else dropThroughParen rest

/-- Fuel-indexed worker for `removeParens`; the fuel only bounds the
recursion depth (one unit per character consumed), so any fuel at least
the length of the input gives the fixpoint behaviour. -/
def removeParensFuel : Nat → List Char → List Char
  | 0, s => s
  | _ + 1, [] => []
  | fuel + 1, c :: rest =>
    if c = '(' then
      match dropThroughParen rest with
      | some rest2 => removeParensFuel fuel rest2
      | none => c :: removeParensFuel fuel rest
    else c :: removeParensFuel fuel rest

/-- Python `re.sub(r"\(.*?\)", "", s)`: each lazily matched `(...)` segment
(first `(`, then up to the nearest `)`) is removed; a `(` with no later
`)` stays, exactly as the regex then fails to match there. -/
def removeParens (s : List Char) : List Char := removeParensFuel s.length s

/-- Embedding of `normalize_text`: lowercase, replace every character that
is neither a word character nor whitespace by a space, then collapse
whitespace runs (`" ".join(text.split())`). -/
def normalize_text (t : List Char) : List Char :=
  let repl := (pyLower t).map (fun c => if !isWordC c && !isPySpace c then ' ' else c)
  List.intercalate " ".data (pySplit repl)

/-- The effective stopword list of `extract_keywords` (the second `ignore`
binding in the source shadows the first). -/
def ignoreWords : List String :=
  ["технологии", "разработки", "разработка", "по", "для", "начинающих",
   "доп", "главы", "блок", "семестр", "прикладные", "задачи",
   "интеллектуального", "анализа", "данных", "на", "основы",
   "программного", "обеспечения", "систем", "управлению", "управление",
   "приложений", "приложения", "приложение", "часть", "часть1", "часть2",
   "мобильных", "архитектура", "проектирование", "занятия", "вебинар",
   "вебинары", "дисциплина", "дисциплины", "выбору"]

/-- Embedding of `extract_keywords`.  The Python function returns a set of
tokens; the token list here carries the same membership, which is all the
matcher consumes (membership tests and intersection non-emptiness). -/
def extract_keywords (choice : List Char) : List (List Char) :=
  let norm := normalize_text (removeParens choice)
  (pySplit norm).filter
    (fun t => !(ignoreWords.any (fun w => w.data == t)) && decide (2 < t.length))

/-- Anchored attempt of `[–-]\s*([А-ЯЁ][а-яё]+)\s+[А-ЯЁ]\.` (instructor
surname extraction in `find_elective_match`), returning group 1. -/
def matchSurnameAt (s : List Char) : Option (List Char) :=
  match s with
  | d :: r0 =>
    if d = '–' ∨ d = '-' then
      match r0.dropWhile isPySpace with
      | c :: r2 =>
        if isUpperCyr c then
          match takeWhile1 isLowerCyr r2 with
          | some (low, r3) =>
            (match takeWhile1 isPySpace r3 with
             | some (_, r4) =>
               (match r4 with
                | u :: '.' :: _ => if isUpperCyr u then some (c :: low) else none
                | _ => none)
             | none => none)
          | none => none
        else none
      | [] => none
    else none
  | [] => none

/-- Python `re.search(r"[–-]\s*([А-ЯЁ][а-яё]+)\s+[А-ЯЁ]\.", s)`, group 1. -/
def searchSurname : List Char → Option (List Char)
  | [] => none
  | c :: rest =>
    match matchSurnameAt (c :: rest) with
    | some g => some g
    | none => searchSurname rest

/-- The `Lesson` dataclass of `src/parser.py`. -/
structure Lesson where
  day : Nat
  time_start : String
  time_end : String
  subject : String
  instructor : String
  room : String
  notes : String := ""
  link : String := ""
  type : String := ""
  weeks : String := "all"
deriving DecidableEq, Repr

/-- Token set of one candidate lesson in `find_elective_match`:
`extract_keywords(normalize_text(f"{subject} {instructor} {notes}"))`. -/
def lessonTokens (l : Lesson) : List (List Char) :=
  extract_keywords (normalize_text (l.subject ++ " " ++ l.instructor ++ " " ++ l.notes).data)

/-- The lowercased surname extracted from the choice string (empty when
the pattern finds no instructor). -/
def choiceSurname (choice : String) : List Char :=
  match searchSurname choice.data with
  | some g => pyLower g
  | none => []

/-- The `for lesson in available_lessons` loop of `find_elective_match`:
instructor-surname test first (with `continue`), keyword intersection
second. -/
def matchLoop (surname : List Char) (keywords : List (List Char)) :
    List Lesson → List Lesson
  | [] => []
  | l :: rest =>
    let tokens := lessonTokens l
    if !surname.isEmpty && tokens.contains surname then
      l :: matchLoop surname keywords rest
    else if keywords.any (fun k => tokens.contains k) then
      l :: matchLoop surname keywords rest
    else matchLoop surname keywords rest

/-- Embedding of `find_elective_match`. -/
def find_elective_match (choice : String) (pool : List Lesson) : List Lesson :=
  if choice.data.isEmpty then []
  else matchLoop (choiceSurname choice) (extract_keywords choice.data) pool

/-! ## Grid normalizer and structural scanner (`parse_schedule`) -/

/-- One worksheet cell: `(string value, hyperlink target)`, as materialized
into `rows_data` by `parse_schedule` before merge expansion. -/
abbrev GridCell := String × String

/-- The dense in-memory grid `rows_data`. -/
abbrev Grid := List (List GridCell)

/-- One merge range of the worksheet (inclusive 1-based bounds, as
`openpyxl` reports them). -/
structure MergeRange where
  minCol : Nat
  minRow : Nat
  maxCol : Nat
  maxRow : Nat
deriving DecidableEq, Repr

/-- The input of the modelled `parse_schedule`: the materialized cell
matrix together with the worksheet's merge ranges (the `openpyxl` loading
itself is outside the core being verified). -/
structure Sheet where
  cells : Grid
  merges : List MergeRange
deriving Repr

/-- Map with the element's index, starting the count at `i`. -/
def mapIdxFrom (f : Nat → α → β) : Nat → List α → List β
  | _, [] => []
  | i, x :: xs => f i x :: mapIdxFrom f (i + 1) xs

/-- Pointwise transform of a grid with row and column indices. -/
def mapGrid (f : Nat → Nat → GridCell → GridCell) (g : Grid) : Grid :=
  mapIdxFrom (fun r row => mapIdxFrom (fun c x => f r c x) 0 row) 0 g

/-- Read a grid cell, empty outside the grid (0-based indices). -/
def getCell (g : Grid) (r c : Nat) : GridCell :=
  ((g.getD r []).getD c ("", ""))

/-- Membership of the 0-based cell `(r, c)` in the filled range
`range(min_row - 1, max_row) × range(min_col - 1, max_col)`. -/
def inMergeB (m : MergeRange) (r c : Nat) : Bool :=
  decide (m.minRow - 1 ≤ r) && decide (r + 1 ≤ m.maxRow) &&
  decide (m.minCol - 1 ≤ c) && decide (c + 1 ≤ m.maxCol)

/-- One iteration of the merge-expansion loop: read the top-left value,
then write it into every cell of the range.  Because the written value is
the one `tl_val` captured before the loop, the sequential Python
assignments amount to this pointwise overwrite. -/
def applyMergeRange (g : Grid) (m : MergeRange) : Grid :=
  let tl := getCell g (m.minRow - 1) (m.minCol - 1)
  mapGrid (fun r c x => if inMergeB m r c then tl else x) g

/-- The full `for merge_range in ws.merged_cells.ranges` loop. -/
def applyMerges (g : Grid) (ms : List MergeRange) : Grid :=
  ms.foldl applyMergeRange g

/-- Group discovery from row index 1: every non-empty (after strip) cell
from column index 2 on binds a group id to its column. -/
def discoverGroups (row : List GridCell) : List (Nat × String) :=
  ((mapIdxFrom (fun i cell => (i, cell)) 0 row).drop 2).filterMap
    (fun p =>
      let g := pyStrip p.2.1.data
      if g.isEmpty then none else some (p.1, String.mk g))

/-- Keep-first deduplication (the key order of a Python dict built by
repeated insertion). -/
def dedupFirstAux (seen : List String) : List String → List String
  | [] => []
  | g :: rest =>
    if seen.contains g then dedupFirstAux seen rest
    else g :: dedupFirstAux (seen ++ [g]) rest

/-- Keep-first deduplication, entry point. -/
def dedupFirst (gs : List String) : List String := dedupFirstAux [] gs

/-- The schedule seed `{gid: [] for gid in groups.values()}`: one key per
distinct group id, in first-insertion order, each mapped to `[]` (later
duplicate insertions only overwrite the value, which is `[]` again). -/
def initSchedule (gs : List String) : List (String × List Lesson) :=
  (dedupFirst gs).map (fun g => (g, []))

/-- Append lessons to the entry of `gid` (`schedule[gid].append(...)`);
`initSchedule` guarantees the key is present and unique. -/
def appendLessons (sched : List (String × List Lesson)) (gid : String)
    (ls : List Lesson) : List (String × List Lesson) :=
  match sched with
  | [] => []
  | (g, cur) :: rest =>
    if g == gid then (g, cur ++ ls) :: rest
    else (g, cur) :: appendLessons rest gid ls

/-- The Cyrillic day markers with their weekday indices, in the source's
dictionary order (also the alternation order of `_DAY_RE`). -/
def dayMarkers : List (String × Nat) :=
  [("ПОНЕДЕЛЬНИК", 0), ("ВТОРНИК", 1), ("СРЕДА", 2), ("ЧЕТВЕРГ", 3),
   ("ПЯТНИЦА", 4), ("СУББОТА", 5), ("ВОСКРЕСЕНЬЕ", 6)]

/-- Anchored match of one spaced-out day alternative (the letters of `day`
joined by `\s*`, compiled with `re.IGNORECASE`).  Returns the consumed
characters and the rest. -/
def matchSpacedDayAt : List Char → List Char → Option (List Char × List Char)
  | [], s => some ([], s)
  | [d], c :: rest =>
    if rusLower c = rusLower d then some ([c], rest) else none
  | [_], [] => none
  | d :: d2 :: ds, c :: rest =>
    if rusLower c = rusLower d then
      let sp := rest.takeWhile isPySpace
      let r2 := rest.drop sp.length
      match matchSpacedDayAt (d2 :: ds) r2 with
      | some (m, post) => some (c :: (sp ++ m), post)
      | none => none
    else none
  | _ :: _ :: _, [] => none

/-- The `_DAY_RE` alternation: try the seven day alternatives in order;
a successful alternative for day `d` normalizes (whitespace removed,
uppercased) exactly to `d`, so the `DAY_MARKERS` lookup that follows the
match in `parse_schedule` yields that day's index. -/
def matchDayAlt (s : List Char) : Option Nat :=
  dayMarkers.foldr
    (fun p acc =>
      match matchSpacedDayAt p.1.data s with
      | some _ => some p.2
      | none => acc)
    none

/-- Python `_DAY_RE.search` combined with the `_normalize_day` lookup:
scan for a literal `*`, skip whitespace, then try the day alternation. -/
def searchDay : List Char → Option Nat
  | [] => none
  | c :: rest =>
    if c = '*' then
      match matchDayAlt (rest.dropWhile isPySpace) with
      | some i => some i
      | none => searchDay rest
    else searchDay rest

/-- Anchored match of `_TIME_RE`, `(\d{2})[.:](\d{2})\s*-\s*(\d{2})[.:](\d{2})`:
returns the four captured digit groups. -/
def matchTimeAt (s : List Char) :
    Option (List Char × List Char × List Char × List Char) :=
  match takeExactDigits 2 s with
  | some (h1, r1) =>
    (match r1 with
     | sep1 :: r2 =>
       if sep1 = '.' ∨ sep1 = ':' then
         match takeExactDigits 2 r2 with
         | some (m1, r3) =>
           (match (r3.dropWhile isPySpace) with
            | '-' :: r4 =>
              (match takeExactDigits 2 (r4.dropWhile isPySpace) with
               | some (h2, r5) =>
                 (match r5 with
                  | sep2 :: r6 =>
                    if sep2 = '.' ∨ sep2 = ':' then
                      match takeExactDigits 2 r6 with
                      | some (m2, _) => some (h1, m1, h2, m2)
                      | none => none
                    else none
                  | [] => none)
               | none => none)
            | _ => none)
         | none => none
       else none
     | [] => none)
  | none => none

/-- Python `_TIME_RE.search`. -/
def searchTime : List Char → Option (List Char × List Char × List Char × List Char)
  | [] => none
  | c :: rest =>
    match matchTimeAt (c :: rest) with
    | some g => some g
    | none => searchTime rest

/-- The `is_shared` computation of `parse_schedule`: some other group
column of the same row whose stripped text equals this column's stripped
text (the inner `for other_col_idx ... break` loop). -/
def isSharedFlag (groups : List (Nat × String)) (row : List GridCell)
    (colIdx : Nat) : Bool :=
  let cellVal := pyStrip ((row.getD colIdx ("", "")).1.data)
  groups.any (fun p =>
    !(p.1 == colIdx) && decide (p.1 < row.length) &&
    (pyStrip ((row.getD p.1 ("", "")).1.data) == cellVal))

/-- Lessons emitted for one group column of a lesson-slot row. -/
def lessonsForCol (groups : List (Nat × String)) (row : List GridCell)
    (day : Nat) (ts te : String) (colIdx : Nat) : List Lesson :=
  if decide (row.length ≤ colIdx) then []
  else
    let cell := row.getD colIdx ("", "")
    let cellVal := pyStrip cell.1.data
    if cellVal.isEmpty then []
    else
      let shared := isSharedFlag groups row colIdx
      (parse_cell_text cellVal).filterMap (fun e =>
        if e.subject.isEmpty then none
        else
          some { day := day, time_start := ts, time_end := te,
                 subject := String.mk e.subject,
                 instructor := String.mk e.instructor,
                 room := String.mk e.room,
                 notes := String.mk cellVal,
                 link := cell.2,
                 type := detect_lesson_type (String.mk e.subject)
                   (String.mk e.instructor) (String.mk cellVal) shared,
                 weeks := detect_lesson_weeks (String.mk e.subject)
                   (String.mk e.instructor) (String.mk cellVal) })

/-- One iteration of the `for row in rows_data[2:]` walk; the state is
`(current_day, schedule)`.  A day match in column 0 updates the day, and
the row then continues into the time-slot check (there is no `continue`
after a day match in the source). -/
def processRow (groups : List (Nat × String))
    (st : Option Nat × List (String × List Lesson)) (row : List GridCell) :
    Option Nat × List (String × List Lesson) :=
  if row.isEmpty then st
  else
    let colA := (row.getD 0 ("", "")).1
    let day := match searchDay colA.data with
      | some i => some i
      | none => st.1
    match day with
    | none => (none, st.2)
    | some d =>
      let colB := if 1 < row.length then (row.getD 1 ("", "")).1 else ""
      match searchTime colB.data with
      | none => (some d, st.2)
      | some (h1, m1, h2, m2) =>
        let ts := String.mk (h1 ++ ':' :: m1)
        let te := String.mk (h2 ++ ':' :: m2)
        (some d, groups.foldl
          (fun sched p =>
            appendLessons sched p.2 (lessonsForCol groups row d ts te p.1))
          st.2)

/-- Embedding of `parse_schedule` on the materialized grid: merge
expansion, the minimum-row check, group discovery from row 1, and the
day-tracking row walk. -/
def parse_schedule (s : Sheet) : Except String (List (String × List Lesson)) :=
  let grid := applyMerges s.cells s.merges
  if grid.length < 3 then
    Except.error "XLSX has too few rows to contain a schedule"
  else
    let groups := discoverGroups (grid.getD 1 [])
    Except.ok
      ((grid.drop 2).foldl (processRow groups)
        (none, initSchedule (groups.map Prod.snd))).2

/-- Group ids discovered in row index 1 of the normalized grid, in column
order. -/
def discoveredGids (s : Sheet) : List String :=
  (discoverGroups ((applyMerges s.cells s.merges).getD 1 [])).map Prod.snd

/-! ## Claims -/

/-- The elective-bundle cell of the spec's test vector. -/
def electiveCell : String :=
  "Дисциплины по выбору:\nDjango (Технологии), Дубровец В.О.\nReact, Иванова П.П. в 1305"

/-- C1: for the three-line elective cell, `_parse_cell_text` returns
exactly two tuples, each whose notes string ends with "(по выбору)", the
first with empty room and the second with room "1305". -/
theorem claim1_elective_cell_extraction :
    (parse_cell_text electiveCell.data).length = 2 ∧
    (parse_cell_text electiveCell.data).all
      (fun e => "(по выбору)".data.isSuffixOf e.notes) = true ∧
    ((parse_cell_text electiveCell.data).getD 0 ⟨[], [], [], []⟩).room = [] ∧
    ((parse_cell_text electiveCell.data).getD 1 ⟨[], [], [], []⟩).room = "1305".data := by
  decide

/-- C3: the odd-week check comes first, so any text containing an odd-stem
keyword is classified "odd" (even though the even stem occurs inside the
odd word), and text containing neither stem is classified "all". -/
theorem claim3_week_parity_precedence (subject instructor notes : String) :
    (oddKeys.any (fun k => containsSub k.data (lessonText subject instructor notes)) = true →
      detect_lesson_weeks subject instructor notes = "odd") ∧
    (oddKeys.any (fun k => containsSub k.data (lessonText subject instructor notes)) = false →
      evenKeys.any (fun k => containsSub k.data (lessonText subject instructor notes)) = false →
      detect_lesson_weeks subject instructor notes = "all") := by
  constructor
  · intro h
    simp only [detect_lesson_weeks, h, if_true]
  · intro h1 h2
    simp only [detect_lesson_weeks, h1, h2, if_false, Bool.false_eq_true]

/-- Witness for C3 at notes "нечетная": the even stem is present as a
substring, yet the result is "odd"; and a stem-free triple gives "all". -/
theorem claim3_week_parity_precedence_witness :
    detect_lesson_weeks "" "" "нечетная" = "odd" ∧
    evenKeys.any (fun k => containsSub k.data (lessonText "" "" "нечетная")) = true ∧
    detect_lesson_weeks "Матан" "" "" = "all" :=
  ⟨(claim3_week_parity_precedence "" "" "нечетная").1 (by decide),
   by decide,
   (claim3_week_parity_precedence "Матан" "" "").2 (by decide) (by decide)⟩

/-- C4: a subject containing "лекция" always classifies as lecture, for
either value of `is_shared`; with no lecture and no practice keyword in
the combined text, the `is_shared` fallback decides. -/
theorem claim4_lesson_type (subject instructor notes : String) (is_shared : Bool) :
    (containsSub "лекция".data subject.data = true →
      detect_lesson_type subject instructor notes is_shared = "Лекц") ∧
    (lectureKeys.any (fun k => containsSub k.data (lessonText subject instructor notes)) = false →
      practiceKeys.any (fun k => containsSub k.data (lessonText subject instructor notes)) = false →
      detect_lesson_type subject instructor notes is_shared =
        (if is_shared then "Лекц" else "Прак")) := by
  constructor
  · intro h
    have h1 : "лекция".data <:+: subject.data := (containsSub_iff _ _).mp h
    have h2 : "лекци".data <:+: subject.data :=
      List.IsInfix.trans ⟨[], ['я'], by decide⟩ h1
    have h3 : ("лекци".data.map rusLower) <:+: (subject.data.map rusLower) :=
      h2.map rusLower
    have h4 : "лекци".data <:+: subject.data.map rusLower := by
      have he : "лекци".data.map rusLower = "лекци".data := by decide
      rw [he] at h3; exact h3
    have h5 : "лекци".data <:+: lessonText subject instructor notes := by
      obtain ⟨u, v, huv⟩ := h4
      refine ⟨u, v ++ (" " ++ instructor ++ " " ++ notes).data.map rusLower, ?_⟩
      have hsplit : lessonText subject instructor notes =
          subject.data.map rusLower ++ (" " ++ instructor ++ " " ++ notes).data.map rusLower := by
        simp [lessonText, pyLower, String.data_append]
      rw [hsplit, ← huv]
      simp [List.append_assoc]
    have hany : lectureKeys.any
        (fun k => containsSub k.data (lessonText subject instructor notes)) = true :=
      List.any_eq_true.mpr ⟨"лекци", by decide, (containsSub_iff _ _).mpr h5⟩
    simp only [detect_lesson_type, hany, if_true]
  · intro h1 h2
    simp only [detect_lesson_type, h1, h2, Bool.false_eq_true, if_false]

/-- Witness for C4: "лекция" forces lecture even with `is_shared = false`;
a keyword-free subject falls back on `is_shared`. -/
theorem claim4_lesson_type_witness :
    detect_lesson_type "лекция" "" "" false = "Лекц" ∧
    detect_lesson_type "Матан" "" "" true = "Лекц" ∧
    detect_lesson_type "Матан" "" "" false = "Прак" :=
  ⟨(claim4_lesson_type "лекция" "" "" false).1 (by decide),
   by simpa using (claim4_lesson_type "Матан" "" "" true).2 (by decide) (by decide),
   by simpa using (claim4_lesson_type "Матан" "" "" false).2 (by decide) (by decide)⟩

/-- C5 counterexample: a column-0 cell that is exactly the uppercase day
name "ПОНЕДЕЛЬНИК" is not recognized — `_DAY_RE` demands a literal `*`
before the day word — so the claim that bare day names set the weekday
index fails. -/
theorem claim5_counterexample :
    searchDay "ПОНЕДЕЛЬНИК".data = none ∧
    ¬ (∀ p ∈ dayMarkers, searchDay p.1.data = some p.2) := by
  constructor
  · decide
  · intro hall
    have := hall ("ПОНЕДЕЛЬНИК", 0) (by decide)
    simp only at this
    exact absurd this (by decide)

/-- C5 amended: with the asterisk prefix the sheets actually carry, day
recognition is case- and spacing-insensitive: for each of the seven days,
"*DAY", "*day" and the letter-spaced form all yield that day's index. -/
theorem claim5_day_markers_amended :
    (dayMarkers.all fun p =>
      searchDay ('*' :: p.1.data) == some p.2 &&
      searchDay ('*' :: pyLower p.1.data) == some p.2 &&
      searchDay ('*' :: p.1.data.intersperse ' ') == some p.2) = true := by
  decide

/-- A day-marker row that also carries a time slot and a lesson cell. -/
def dayRowWithLesson : List GridCell :=
  [("*ПОНЕДЕЛЬНИК", ""), ("08.30-10.00", ""), ("Матан, Иванов И.И. в 1305", "")]

/-- C6 counterexample: on a row whose column 0 matches the day pattern,
the scanner does not continue to the next row — since the row also has a
time slot in column 1, a lesson is emitted from this very row, so the
schedule is not left unchanged. -/
theorem claim6_counterexample :
    searchDay (dayRowWithLesson.getD 0 ("", "")).1.data = some 0 ∧
    (processRow [(2, "G1")] (none, [("G1", [])]) dayRowWithLesson).2 ≠ [("G1", [])] := by
  decide

/-- C6 amended: a day-pattern match in column 0 does update `current_day`
to the matched index, and the row emits nothing only when its column 1
carries no time-slot pattern; otherwise it is processed as a normal
lesson row under the new day. -/
theorem claim6_day_row_amended (groups : List (Nat × String))
    (st : Option Nat × List (String × List Lesson)) (row : List GridCell) (i : Nat)
    (hday : searchDay (row.getD 0 ("", "")).1.data = some i)
    (hrow : row.isEmpty = false) :
    (processRow groups st row).1 = some i ∧
    (searchTime (if 1 < row.length then (row.getD 1 ("", "")).1 else "").data = none →
      (processRow groups st row).2 = st.2) := by
  unfold processRow
  rw [hrow]
  simp only [Bool.false_eq_true, if_false, hday]
  cases htime : searchTime (if 1 < row.length then (row.getD 1 ("", "")).1 else "").data with
  | none => exact ⟨rfl, fun _ => rfl⟩
  | some g =>
    obtain ⟨h1, m1, h2, m2⟩ := g
    exact ⟨rfl, fun hc => nomatch hc⟩

/-- Witness for C6 amended: a lone day-marker row with no time column
sets the day to Tuesday and leaves the schedule untouched. -/
theorem claim6_day_row_amended_witness :
    (processRow [] (none, []) [("*ВТОРНИК", "")]).1 = some 1 ∧
    (processRow [] (none, []) [("*ВТОРНИК", "")]).2 = [] :=
  ⟨(claim6_day_row_amended [] (none, []) [("*ВТОРНИК", "")] 1 (by decide) (by decide)).1,
   (claim6_day_row_amended [] (none, []) [("*ВТОРНИК", "")] 1 (by decide) (by decide)).2
     (by decide)⟩

/-- A row whose two group cells differ only by a trailing space. -/
def sharedRow : List GridCell :=
  [("", ""), ("", ""), ("Матан, Иванов И.И.", ""), ("Матан, Иванов И.И. ", "")]

/-- The two group columns used with `sharedRow`. -/
def sharedGroups : List (Nat × String) := [(2, "G1"), (3, "G2")]

/-- C8 counterexample: the flag is computed on stripped text, so a cell
sharing its text with another column only up to surrounding whitespace is
flagged shared even though no other column is byte-identical to it. -/
theorem claim8_counterexample :
    isSharedFlag sharedGroups sharedRow 2 = true ∧
    ¬ ∃ p ∈ sharedGroups, p.1 ≠ 2 ∧
        (sharedRow.getD p.1 ("", "")).1 = (sharedRow.getD 2 ("", "")).1 := by
  decide

/-- C8 amended: `is_shared` is true iff some other group column of the
row (within the row's width) has cell text equal to this column's text
after stripping surrounding whitespace on both sides. -/
theorem claim8_shared_iff_amended (groups : List (Nat × String))
    (row : List GridCell) (colIdx : Nat) :
    isSharedFlag groups row colIdx = true ↔
      ∃ p ∈ groups, p.1 ≠ colIdx ∧ p.1 < row.length ∧
        pyStrip (row.getD p.1 ("", "")).1.data =
          pyStrip (row.getD colIdx ("", "")).1.data := by
  simp [isSharedFlag, List.any_eq_true, Bool.and_eq_true, decide_eq_true_iff,
    Bool.not_eq_true', and_assoc]

/-- Row-count preservation of one merge expansion. -/
theorem length_mapIdxFrom (f : Nat → α → β) (i : Nat) (l : List α) :
    (mapIdxFrom f i l).length = l.length := by
  induction l generalizing i with
  | nil => rfl
  | cons x xs ih => simp [mapIdxFrom, ih]

/-- Merge expansion keeps the number of grid rows. -/
theorem length_applyMerges (g : Grid) (ms : List MergeRange) :
    (applyMerges g ms).length = g.length := by
  induction ms generalizing g with
  | nil => rfl
  | cons m rest ih =>
    show (applyMerges (applyMergeRange g m) rest).length = g.length
    rw [ih]
    simp [applyMergeRange, mapGrid, length_mapIdxFrom]

/-- C9: any grid with fewer than three rows makes `parse_schedule` fail
with the malformed-input error; nothing is parsed. -/
theorem claim9_too_few_rows (s : Sheet) (h : s.cells.length < 3) :
    parse_schedule s = Except.error "XLSX has too few rows to contain a schedule" := by
  unfold parse_schedule
  rw [if_pos]
  rw [length_applyMerges]
  exact h

/-- Witness for C9: a two-row sheet (with a merge range) is rejected. -/
theorem claim9_too_few_rows_witness :
    parse_schedule { cells := [[("x", "")], [("y", "")]], merges := [⟨1, 1, 1, 2⟩] } =
      Except.error "XLSX has too few rows to contain a schedule" :=
  claim9_too_few_rows _ (by decide)

/-- The per-lesson matching condition as the spec states it: the
extracted instructor surname is a member of the lesson's token set, or
the choice's keyword set intersects the lesson's token set. -/
def electiveMatches (choice : String) (l : Lesson) : Prop :=
  (choiceSurname choice ≠ [] ∧ choiceSurname choice ∈ lessonTokens l) ∨
  ∃ k ∈ extract_keywords choice.data, k ∈ lessonTokens l

instance (choice : String) (l : Lesson) : Decidable (electiveMatches choice l) := by
  unfold electiveMatches
  exact inferInstance

/-- The Boolean tests of the loop body agree with `electiveMatches`. -/
theorem electiveMatches_bool (choice : String) (l : Lesson) :
    (!(choiceSurname choice).isEmpty &&
        (lessonTokens l).contains (choiceSurname choice) ||
      (extract_keywords choice.data).any (fun k => (lessonTokens l).contains k))
    = decide (electiveMatches choice l) := by
  rw [Bool.eq_iff_iff]
  simp [electiveMatches, List.any_eq_true, List.contains, List.elem_iff,
    Bool.and_eq_true, Bool.or_eq_true, Bool.not_eq_true', List.isEmpty_iff,
    List.isEmpty_eq_false]

/-- The scan loop is the filter by `electiveMatches`. -/
theorem matchLoop_eq_filter (choice : String) (pool : List Lesson) :
    matchLoop (choiceSurname choice) (extract_keywords choice.data) pool =
      pool.filter (fun l => decide (electiveMatches choice l)) := by
  induction pool with
  | nil => rfl
  | cons l rest ih =>
    rw [List.filter_cons]
    by_cases hb : decide (electiveMatches choice l) = true
    · rw [if_pos hb]
      have hor := electiveMatches_bool choice l
      rw [hb] at hor
      by_cases hc1 : (!(choiceSurname choice).isEmpty &&
          (lessonTokens l).contains (choiceSurname choice)) = true
      · simp only [matchLoop, hc1, if_true]
        rw [ih]
      · have hc2 : (extract_keywords choice.data).any
            (fun k => (lessonTokens l).contains k) = true := by
          cases hb1 : (!(choiceSurname choice).isEmpty &&
              (lessonTokens l).contains (choiceSurname choice)) with
          | true => exact absurd hb1 hc1
          | false => rw [hb1] at hor; simpa using hor
        simp only [matchLoop, hc1, hc2, if_true, Bool.false_eq_true, if_false]
        rw [ih]
    · rw [if_neg hb]
      have hor := electiveMatches_bool choice l
      rw [Bool.not_eq_true] at hb
      rw [hb] at hor
      obtain ⟨h1, h2⟩ := Bool.or_eq_false_iff.mp hor
      simp only [matchLoop, h1, h2, Bool.false_eq_true, if_false]
      exact ih

/-- C2: `find_elective_match` returns exactly the pool lessons, in pool
order and with multiplicity, for which the surname test or the keyword
intersection test holds (the surname test decided first). -/
theorem claim2_elective_match_filter (choice : String) (pool : List Lesson) :
    find_elective_match choice pool =
      pool.filter (fun l => decide (electiveMatches choice l)) := by
  unfold find_elective_match
  by_cases h : choice.data.isEmpty
  · rw [if_pos h]
    have hd : choice.data = [] := List.isEmpty_iff.mp h
    have h1 : choiceSurname choice = [] := by
      unfold choiceSurname
      rw [hd]
      rfl
    have h2 : extract_keywords choice.data = [] := by
      rw [hd]
      rfl
    symm
    rw [List.filter_eq_nil_iff]
    intro l _
    simp [electiveMatches, h1, h2]
  · rw [if_neg h]
    exact matchLoop_eq_filter choice pool

/-! ## Merge-expansion invariant (C7 infrastructure) -/

theorem getElem?_mapIdxFrom (f : Nat → α → β) (i : Nat) (l : List α) (j : Nat) :
    (mapIdxFrom f i l)[j]? = l[j]?.map (f (i + j)) := by
  induction l generalizing i j with
  | nil => simp [mapIdxFrom]
  | cons x xs ih =>
    cases j with
    | zero => simp [mapIdxFrom]
    | succ j =>
      simp only [mapIdxFrom, List.getElem?_cons_succ, ih (i + 1) j]
      have he : i + 1 + j = i + (j + 1) := by omega
      rw [he]

/-- Reading the transformed grid: out-of-range cells stay at the default,
in-range cells are transformed pointwise. -/
theorem getCell_mapGrid (f : Nat → Nat → GridCell → GridCell) (g : Grid) (r c : Nat) :
    getCell (mapGrid f g) r c =
      match g[r]? with
      | none => ("", "")
      | some row =>
        match row[c]? with
        | none => ("", "")
        | some x => f r c x := by
  unfold getCell mapGrid
  simp only [List.getD_eq_getElem?_getD, getElem?_mapIdxFrom, Nat.zero_add]
  cases hr : g[r]? with
  | none => simp
  | some row =>
    simp only [Option.map_some, Option.getD_some, Nat.zero_add]
    cases hc : row[c]? with
    | none => simp [getElem?_mapIdxFrom, hc]
    | some x => simp [getElem?_mapIdxFrom, hc]

/-- Row lengths survive `mapGrid`. -/
theorem rowLength_mapGrid (f : Nat → Nat → GridCell → GridCell) (g : Grid) (r : Nat) :
    ((mapGrid f g).getD r []).length = (g.getD r []).length := by
  unfold mapGrid
  rw [List.getD_eq_getElem?_getD, getElem?_mapIdxFrom, List.getD_eq_getElem?_getD]
  cases hr : g[r]? with
  | none => simp
  | some row => simp [length_mapIdxFrom]

/-- The key single-step fact: after one merge expansion, a cell holds the
anchor value when it lies in the range (and in the grid), and its old
value otherwise. -/
theorem getCell_applyMergeRange (g : Grid) (m : MergeRange) (r c : Nat) :
    getCell (applyMergeRange g m) r c =
      if r < g.length ∧ c < (g.getD r []).length ∧ inMergeB m r c = true
      then getCell g (m.minRow - 1) (m.minCol - 1)
      else getCell g r c := by
  unfold applyMergeRange
  rw [getCell_mapGrid]
  cases hr : g[r]? with
  | none =>
    have hge : g.length ≤ r := by
      have := List.getElem?_eq_none_iff.mp hr
      exact this
    rw [if_neg (by omega)]
    simp [getCell, hr]
  | some row =>
    have hrlt : r < g.length := by
      have := List.getElem?_eq_some_iff.mp hr
      exact this.1
    have hrowD : g.getD r [] = row := by
      rw [List.getD_eq_getElem?_getD, hr]; rfl
    cases hc : row[c]? with
    | none =>
      have hge : row.length ≤ c := List.getElem?_eq_none_iff.mp hc
      rw [if_neg (by rw [hrowD]; omega)]
      simp [getCell, hr, hc]
    | some x =>
      have hclt : c < row.length := (List.getElem?_eq_some_iff.mp hc).1
      have hx : getCell g r c = x := by
        simp [getCell, hr, hc]
      by_cases hin : inMergeB m r c = true
      · rw [if_pos ⟨hrlt, by rw [hrowD]; exact hclt, hin⟩]
        simp [hc, hin]
      · rw [if_neg (by intro hcontra; exact hin hcontra.2.2), hx]
        simp only [Bool.not_eq_true] at hin
        simp [hc, hin]

/-- Row lengths survive the whole merge pass. -/
theorem rowLength_applyMerges (g : Grid) (ms : List MergeRange) (r : Nat) :
    ((applyMerges g ms).getD r []).length = (g.getD r []).length := by
  induction ms generalizing g with
  | nil => rfl
  | cons m rest ih =>
    show ((applyMerges (applyMergeRange g m) rest).getD r []).length = _
    rw [ih]
    exact rowLength_mapGrid _ g r

/-- Cells covered by none of the remaining ranges keep their value. -/
theorem getCell_applyMerges_untouched (g : Grid) (ms : List MergeRange) (r c : Nat)
    (h : ∀ m ∈ ms, inMergeB m r c = false) :
    getCell (applyMerges g ms) r c = getCell g r c := by
  induction ms generalizing g with
  | nil => rfl
  | cons m rest ih =>
    show getCell (applyMerges (applyMergeRange g m) rest) r c = _
    rw [ih _ (fun m hm => h m (List.mem_cons_of_mem _ hm))]
    rw [getCell_applyMergeRange]
    rw [if_neg]
    intro hcontra
    exact absurd hcontra.2.2 (by rw [h m (List.mem_cons_self m rest)]; exact Bool.false_ne_true)

/-- Non-overlap of two merge ranges: no cell lies in both. -/
def mergeDisjoint (a b : MergeRange) : Prop :=
  ∀ r c, ¬(inMergeB a r c = true ∧ inMergeB b r c = true)

/-- The anchor cell belongs to its own (non-empty) range. -/
theorem anchor_inMergeB {m : MergeRange} {r c : Nat} (h : inMergeB m r c = true) :
    inMergeB m (m.minRow - 1) (m.minCol - 1) = true := by
  simp only [inMergeB, Bool.and_eq_true, decide_eq_true_iff] at h ⊢
  omega

/-- C7: with pairwise non-overlapping merge ranges, after normalization
every in-grid cell of a range carries exactly the value (text and
hyperlink) of the range's anchor cell. -/
theorem claim7_merge_uniform (g : Grid) (ms : List MergeRange)
    (hdisj : ms.Pairwise mergeDisjoint) (m : MergeRange) (hm : m ∈ ms)
    (r c : Nat) (hin : inMergeB m r c = true)
    (hr : r < g.length) (hc : c < (g.getD r []).length)
    (har : m.minRow - 1 < g.length)
    (hac : m.minCol - 1 < (g.getD (m.minRow - 1) []).length) :
    getCell (applyMerges g ms) r c =
      getCell (applyMerges g ms) (m.minRow - 1) (m.minCol - 1) := by
  induction ms generalizing g with
  | nil => cases hm
  | cons m0 rest ih =>
    have hpair := List.pairwise_cons.mp hdisj
    rcases List.mem_cons.mp hm with hm0 | hmr
    · subst hm0
      have hain : inMergeB m (m.minRow - 1) (m.minCol - 1) = true := anchor_inMergeB hin
      have huntouched1 : ∀ b ∈ rest, inMergeB b r c = false := by
        intro b hb
        cases hbv : inMergeB b r c with
        | false => rfl
        | true => exact absurd ⟨hin, hbv⟩ (hpair.1 b hb r c)
      have huntouched2 : ∀ b ∈ rest, inMergeB b (m.minRow - 1) (m.minCol - 1) = false := by
        intro b hb
        cases hbv : inMergeB b (m.minRow - 1) (m.minCol - 1) with
        | false => rfl
        | true => exact absurd ⟨hain, hbv⟩ (hpair.1 b hb _ _)
      have hstep : applyMerges g (m :: rest) = applyMerges (applyMergeRange g m) rest := rfl
      rw [hstep]
      rw [getCell_applyMerges_untouched _ _ _ _ huntouched1,
        getCell_applyMerges_untouched _ _ _ _ huntouched2]
      rw [getCell_applyMergeRange, getCell_applyMergeRange]
      rw [if_pos ⟨hr, hc, hin⟩, if_pos ⟨har, hac, hain⟩]
    · have hlen : (applyMergeRange g m0).length = g.length := by
        simp [applyMergeRange, mapGrid, length_mapIdxFrom]
      have hrowlen : ∀ i, ((applyMergeRange g m0).getD i []).length = (g.getD i []).length :=
        fun i => rowLength_mapGrid _ g i
      show getCell (applyMerges (applyMergeRange g m0) rest) r c = _
      exact ih (applyMergeRange g m0) hpair.2 hmr
        (by rw [hlen]; exact hr) (by rw [hrowlen]; exact hc)
        (by rw [hlen]; exact har) (by rw [hrowlen]; exact hac)

/-- Witness for C7 on a 2-by-2 grid with one merge spanning it. -/
theorem claim7_merge_uniform_witness :
    getCell (applyMerges [[("a", "L"), ("", "")], [("", ""), ("x", "")]]
        [⟨1, 1, 2, 2⟩]) 1 1 =
      getCell (applyMerges [[("a", "L"), ("", "")], [("", ""), ("x", "")]]
        [⟨1, 1, 2, 2⟩]) 0 0 :=
  claim7_merge_uniform _ _ (List.pairwise_singleton _ _) _ (List.mem_singleton_self _)
    1 1 (by decide) (by decide) (by decide) (by decide) (by decide)

/-! ## Schedule key set (C10 infrastructure) -/

/-- Appending lessons to one group's entry never changes the key list. -/
theorem map_fst_appendLessons (sched : List (String × List Lesson))
    (gid : String) (ls : List Lesson) :
    (appendLessons sched gid ls).map Prod.fst = sched.map Prod.fst := by
  induction sched with
  | nil => rfl
  | cons p rest ih =>
    obtain ⟨g, cur⟩ := p
    by_cases hg : (g == gid) = true
    · simp [appendLessons, hg]
    · simp only [appendLessons]
      rw [Bool.not_eq_true] at hg
      simp [hg, ih]

/-- The per-row group fold never changes the key list (for any lesson
producer `f`). -/
theorem map_fst_groupsFold (f : Nat × String → List Lesson)
    (groups : List (Nat × String)) (sched : List (String × List Lesson)) :
    ((groups.foldl (fun sched p => appendLessons sched p.2 (f p)) sched)).map Prod.fst =
      sched.map Prod.fst := by
  induction groups generalizing sched with
  | nil => rfl
  | cons p rest ih =>
    rw [List.foldl_cons]
    rw [ih]
    exact map_fst_appendLessons sched p.2 (f p)

/-- One row step never changes the key list. -/
theorem map_fst_processRow (groups : List (Nat × String))
    (st : Option Nat × List (String × List Lesson)) (row : List GridCell) :
    ((processRow groups st row).2).map Prod.fst = st.2.map Prod.fst := by
  unfold processRow
  by_cases hrow : row.isEmpty
  · rw [if_pos hrow]
  · rw [if_neg hrow]
    dsimp only
    split
    · rfl
    · split
      · rfl
      · exact map_fst_groupsFold _ groups st.2

/-- The whole row walk never changes the key list. -/
theorem map_fst_rowsFold (groups : List (Nat × String)) (rows : List (List GridCell))
    (st : Option Nat × List (String × List Lesson)) :
    ((rows.foldl (processRow groups) st).2).map Prod.fst = st.2.map Prod.fst := by
  induction rows generalizing st with
  | nil => rfl
  | cons row rest ih =>
    rw [List.foldl_cons, ih]
    exact map_fst_processRow groups st row

/-- The seed mapping's keys are the first-occurrence deduplication. -/
theorem map_fst_initSchedule (gs : List String) :
    (initSchedule gs).map Prod.fst = dedupFirst gs := by
  unfold initSchedule
  rw [List.map_map]
  exact List.map_id ..

/-- C10: on any accepted grid, the key list of the returned mapping is
exactly the deduplicated list of group ids discovered in row index 1
(columns 2 and beyond) — groups without lessons included. -/
theorem claim10_keys (s : Sheet) (sched : List (String × List Lesson))
    (h : parse_schedule s = Except.ok sched) :
    sched.map Prod.fst = dedupFirst (discoveredGids s) := by
  unfold parse_schedule at h
  by_cases hlen : (applyMerges s.cells s.merges).length < 3
  · rw [if_pos hlen] at h
    cases h
  · rw [if_neg hlen] at h
    obtain rfl := Except.ok.inj h
    rw [map_fst_rowsFold]
    rw [map_fst_initSchedule]
    rfl

/-- A three-row sheet whose two discovered groups get no lessons. -/
def keysSheet : Sheet :=
  { cells := [[("header", "")],
              [("", ""), ("", ""), ("G1", ""), ("", ""), ("G2", "")],
              [("no day marker", ""), ("08.30-10.00", ""), ("Матан, Иванов И.И.", "")]],
    merges := [] }

/-- Witness for C10: both discovered groups appear as keys even though
no lesson row contributes anything (no day marker ever fires). -/
theorem claim10_keys_witness :
    [("G1", ([] : List Lesson)), ("G2", [])].map Prod.fst =
      dedupFirst (discoveredGids keysSheet) :=
  claim10_keys keysSheet [("G1", []), ("G2", [])] rfl
